import Mathlib

/-!
Verification of the acquireQ lease/offer state machine
(src/server/app/queue_manager.py, src/server/app/models.py) against its
natural-language specification.

The persisted tables and the in-process timer registry of `QueueManager` are
embedded as a single state record `DB`; each operation of the manager becomes
a pure function on `DB`.  `datetime.utcnow()` is passed in explicitly as an
integer instant `now`; an offer deadline is an absolute integer timestamp.
Python exceptions on expected inputs (attribute access on `None`) surface as
an error value instead of a result.  Spec section 5 assumes operations on a
resource are serialized, so the system is modelled as a sequential step
relation over `DB`.
-/

namespace AcquireQ

/-- Row of the `queue_items` table (models.py): a claimant's position in a
resource's waiting line. -/
structure QueueItem where
  resource_id : String
  user_id : Nat
  order : Int
  deriving Repr, DecidableEq

/-- Row of the `resources` table (models.py).  Fields never read by the queue
manager (name, description, admin_secret) are omitted. -/
structure ResourceRec where
  id : String
  timeout_seconds : Int
  current_holder_id : Option Nat
  active_offer_expires_at : Option Int
  deriving Repr, DecidableEq

/-- Persisted state plus the in-process side state of `QueueManager`
(queue_manager.py).  `offer_tasks` models `self.offer_tasks` as the set of
resource ids having a scheduled, not-yet-cancelled timeout task; `broadcasts`
counts the snapshots published through `broadcast_update`; `users` holds the
ids of the `users` table and `next_user_id` its autoincrement counter. -/
structure DB where
  resources : List ResourceRec
  queue_items : List QueueItem
  users : List Nat
  next_user_id : Nat
  offer_tasks : List String
  broadcasts : Nat
  deriving Repr, DecidableEq

/-- Exception the queue manager can raise on expected inputs: attribute
access on `None` (e.g. `resource.active_offer_expires_at` after `db.get`
returned no row). -/
inductive PyError where
  | attributeError
  deriving Repr, DecidableEq

/-- Lookup `db.get(Resource, resource_id)`. -/
def getResource (db : DB) (rid : String) : Option ResourceRec :=
  db.resources.find? (fun r => r.id == rid)

/-- Rows of `select(QueueItem).where(QueueItem.resource_id == resource_id)`,
in table (insertion) order. -/
def resourceItems (db : DB) (rid : String) : List QueueItem :=
  db.queue_items.filter (fun i => i.resource_id == rid)

/-- SQL `MAX` over a list of integers (`NULL` on an empty set). -/
def sqlMax : List Int → Option Int
  | [] => none
  | x :: xs =>
    match sqlMax xs with
    | none => some x
    | some m => some (max x m)

/-- Value of `select(func.max(QueueItem.order)).where(...)` followed by
Python's `or 0` (queue_manager.py lines 76-77). -/
def maxOrder (db : DB) (rid : String) : Int :=
  (sqlMax ((resourceItems db rid).map (fun i => i.order))).getD 0

/-- Result of `order_by(QueueItem.order).limit(1)` over rows in table order:
the first row among those of minimal order key. -/
def headItem? : List QueueItem → Option QueueItem
  | [] => none
  | x :: xs =>
    match headItem? xs with
    | none => some x
    | some b => if b.order < x.order then some b else some x

/-- Head of a resource's queue (queue_manager.py lines 115-118). -/
def headItem (db : DB) (rid : String) : Option QueueItem :=
  headItem? (resourceItems db rid)

/-- Committed UPDATE of the resource row(s) carrying the given id. -/
def updateResource (db : DB) (rid : String) (f : ResourceRec → ResourceRec) : DB :=
  { db with resources := db.resources.map (fun r => if r.id == rid then f r else r) }

/-- Effect of `self.offer_tasks[resource_id].cancel()`: the scheduled task,
if any, will no longer fire. -/
def cancelTask (db : DB) (rid : String) : DB :=
  { db with offer_tasks := db.offer_tasks.erase rid }

/-- Effect of cancelling any previous task and storing a fresh
`asyncio.Task` under `offer_tasks[resource_id]`. -/
def armTask (db : DB) (rid : String) : DB :=
  { db with offer_tasks := db.offer_tasks.erase rid ++ [rid] }

/-- Mutation `timed_out_item.order = new_order` of an ORM row: the first
stored row equal to `item` receives the new order key. -/
def setItemOrder : List QueueItem → QueueItem → Int → List QueueItem
  | [], _, _ => []
  | x :: xs, it, o =>
    if x == it then { x with order := o } :: xs else x :: setItemOrder xs it o

/-- Model of `broadcast_update` (queue_manager.py lines 50-55): a snapshot is
published exactly when the resource exists; only the count of published
snapshots is observed here. -/
def broadcast_update (db : DB) (rid : String) : DB :=
  if (getResource db rid).isSome then { db with broadcasts := db.broadcasts + 1 } else db

/-- Model of `QueueManager._process_queue` (queue_manager.py lines 106-143),
the spec's Advance step.  Reading `resource.current_holder_id` on a missing
resource raises `AttributeError`.  If the resource is free and a head exists,
the deadline becomes `now + timeout_seconds`, any previously scheduled
timeout task for the resource is cancelled, a fresh one is stored, and a
snapshot is published. -/
def process_queue (db : DB) (rid : String) (now : Int) : DB × Option PyError :=
  match getResource db rid with
  | none => (db, some PyError.attributeError)
  | some res =>
    if res.current_holder_id.isSome then (db, none)
    else
      match headItem db rid with
      | none => (db, none)
      | some _ =>
        let db1 := updateResource db rid
          (fun r => { r with active_offer_expires_at := some (now + res.timeout_seconds) })
        let db2 := armTask db1 rid
        (broadcast_update db2 rid, none)

/-- Resolution of `user = await db.get(User, user_id)` guarded by
`if user_id:` (queue_manager.py lines 59-61): the id of the existing user, or
`none` when a fresh user must be created.  A `user_id` of `0` is falsy in
Python and is treated like an absent id. -/
def resolveUser (db : DB) (user_id : Option Nat) : Option Nat :=
  match user_id with
  | some u => if u != 0 && db.users.contains u then some u else none
  | none => none

/-- Insertion of a fresh claimant row with the autoincrement id
(queue_manager.py lines 63-67). -/
def createUser (db : DB) : DB :=
  { db with users := db.users ++ [db.next_user_id],
            next_user_id := db.next_user_id + 1 }

/-- Model of `QueueManager.join_queue` (queue_manager.py lines 57-91).
`display_name` and `email` only populate the claimant record and are not
observed.  A `user_id` that is `0` is falsy in Python (`if user_id:`), so it
behaves like an absent id; an id naming no existing user leads to a fresh
user with the autoincrement id `next_user_id`.  The "already in queue" check
(line 70) filters by `user_id` only, over all resources.  On the early
return (line 72) the session closes without commit, so a user created in the
same call would be rolled back.  On the unknown-resource path the queue item
is already committed (line 81) before `resource.active_offer_expires_at` is
read on `None` (line 85), which raises. -/
def join_queue (db : DB) (rid : String) (user_id : Option Nat) (now : Int) :
    DB × Except PyError Nat :=
  let known := resolveUser db user_id
  let uid := known.getD db.next_user_id
  let dbU := if known.isSome then db else createUser db
  if dbU.queue_items.any (fun i => i.user_id == uid) then
    (db, Except.ok uid)
  else
    let item : QueueItem :=
      { resource_id := rid, user_id := uid, order := maxOrder dbU rid + 1 }
    let db1 := { dbU with queue_items := dbU.queue_items ++ [item] }
    match getResource db1 rid with
    | none => (db1, Except.error PyError.attributeError)
    | some res =>
      let db2 := broadcast_update db1 rid
      if res.active_offer_expires_at.isSome then (db2, Except.ok uid)
      else
        match process_queue db2 rid now with
        | (db3, some e) => (db3, Except.error e)
        | (db3, none) => (db3, Except.ok uid)

/-- Model of `QueueManager.release_resource` (queue_manager.py lines
93-104). -/
def release_resource (db : DB) (rid : String) (user_id : Nat) (now : Int) :
    DB × Except PyError Bool :=
  match getResource db rid with
  | none => (db, Except.ok false)
  | some res =>
    if res.current_holder_id == some user_id then
      let db1 := updateResource db rid (fun r => { r with current_holder_id := none })
      let db2 := broadcast_update db1 rid
      match process_queue db2 rid now with
      | (db3, some e) => (db3, Except.error e)
      | (db3, none) => (db3, Except.ok true)
    else (db, Except.ok false)

/-- Model of the body of `QueueManager._handle_timeout` after the sleep
(queue_manager.py lines 145-179), the spec's ExpireOffer step.  With no
resource or no deadline it is a no-op (lines 151-153).  Otherwise the head
item's order key becomes one past the maximal key (`items[-1].order` on the
non-empty sorted queue) and the deadline is cleared; when the queue is empty
nothing is committed (the deadline stays set).  Control then falls through
to a snapshot and `_process_queue`. -/
def handle_timeout (db : DB) (rid : String) (now : Int) : DB × Option PyError :=
  match getResource db rid with
  | none => (db, none)
  | some res =>
    if res.active_offer_expires_at.isNone then (db, none)
    else
      match headItem db rid with
      | none => process_queue (broadcast_update db rid) rid now
      | some timed =>
        let db1 := { db with
          queue_items := setItemOrder db.queue_items timed (maxOrder db rid + 1) }
        let db2 := updateResource db1 rid
          (fun r => { r with active_offer_expires_at := none })
        process_queue (broadcast_update db2 rid) rid now

/-- Model of `QueueManager.accept_offer` (queue_manager.py lines 181-210).
The head check (line 191) fails before `resource.active_offer_expires_at` is
read, so the `None` dereference (line 194) is reached only when a head item
exists for a missing resource row. -/
def accept_offer (db : DB) (rid : String) (user_id : Nat) :
    DB × Except PyError Bool :=
  match headItem db rid with
  | none => (db, Except.ok false)
  | some first =>
    if first.user_id != user_id then (db, Except.ok false)
    else
      match getResource db rid with
      | none => (db, Except.error PyError.attributeError)
      | some res =>
        if res.active_offer_expires_at.isNone then (db, Except.ok false)
        else
          let db1 := updateResource db rid
            (fun r => { r with current_holder_id := some user_id,
                               active_offer_expires_at := none })
          let db2 := { db1 with queue_items := db1.queue_items.erase first }
          let db3 := cancelTask db2 rid
          (broadcast_update db3 rid, Except.ok true)

/-- Model of `QueueManager.reject_offer` (queue_manager.py lines 212-243):
same guards as accept, then the head item is deleted, the deadline cleared,
the task cancelled, a snapshot published and the queue advanced. -/
def reject_offer (db : DB) (rid : String) (user_id : Nat) (now : Int) :
    DB × Except PyError Bool :=
  match headItem db rid with
  | none => (db, Except.ok false)
  | some first =>
    if first.user_id != user_id then (db, Except.ok false)
    else
      match getResource db rid with
      | none => (db, Except.error PyError.attributeError)
      | some res =>
        if res.active_offer_expires_at.isNone then (db, Except.ok false)
        else
          let db1 := { db with queue_items := db.queue_items.erase first }
          let db2 := updateResource db1 rid
            (fun r => { r with active_offer_expires_at := none })
          let db3 := cancelTask db2 rid
          match process_queue (broadcast_update db3 rid) rid now with
          | (db4, some e) => (db4, Except.error e)
          | (db4, none) => (db4, Except.ok true)

/-- Model of `QueueManager.leave_queue` (queue_manager.py lines 245-284).
`was_offered` compares the leaver's order key with the minimal order key of
the queue (lines 263-266); `resource.active_offer_expires_at` is read on a
possibly missing resource row once a queue item was found, which raises on
`None`. -/
def leave_queue (db : DB) (rid : String) (user_id : Nat) (now : Int) :
    DB × Except PyError Bool :=
  match (db.queue_items.filter
      (fun i => i.resource_id == rid && i.user_id == user_id)).head? with
  | none => (db, Except.ok false)
  | some qitem =>
    match getResource db rid with
    | none => (db, Except.error PyError.attributeError)
    | some res =>
      let was_offered := res.active_offer_expires_at.isSome &&
        ((headItem db rid).map (fun i => i.order) == some qitem.order)
      let db1 := { db with queue_items := db.queue_items.erase qitem }
      let db2 :=
        if was_offered then
          cancelTask (updateResource db1 rid
            (fun r => { r with active_offer_expires_at := none })) rid
        else db1
      let db3 := broadcast_update db2 rid
      if was_offered then
        match process_queue db3 rid now with
        | (db4, some e) => (db4, Except.error e)
        | (db4, none) => (db4, Except.ok true)
      else (db3, Except.ok true)

/-- Model of `QueueManager.restore_timers` (queue_manager.py lines 286-303),
the spec's Recover step.  The query selects only resources whose deadline is
strictly in the future (`active_offer_expires_at > datetime.utcnow()`); both
`utcnow()` readings are modelled as the same instant `now`, so
`remaining = deadline - now` and the `remaining <= 0` branch (which would
run `_handle_timeout` at once) is unreachable. -/
def restore_timers (db : DB) (now : Int) : DB :=
  let rs := db.resources.filter (fun r =>
    match r.active_offer_expires_at with
    | some d => decide (now < d)
    | none => false)
  rs.foldl (fun acc r =>
    match r.active_offer_expires_at with
    | some d =>
      if 0 < d - now then armTask acc r.id
      else (handle_timeout acc r.id now).1
    | none => acc) db

/-- One serialized step of the system: an inbound operation, an internal
advance, a scheduled timeout task firing, or the recovery bootstrap.  Spec
section 5 requires operations on a resource to be serialized; this relation
makes that explicit. -/
inductive Step : DB → DB → Prop where
  | join (db : DB) (rid : String) (uo : Option Nat) (now : Int) :
      Step db (join_queue db rid uo now).1
  | release (db : DB) (rid : String) (uid : Nat) (now : Int) :
      Step db (release_resource db rid uid now).1
  | accept (db : DB) (rid : String) (uid : Nat) :
      Step db (accept_offer db rid uid).1
  | reject (db : DB) (rid : String) (uid : Nat) (now : Int) :
      Step db (reject_offer db rid uid now).1
  | leave (db : DB) (rid : String) (uid : Nat) (now : Int) :
      Step db (leave_queue db rid uid now).1
  | fire (db : DB) (rid : String) (now : Int) (h : rid ∈ db.offer_tasks) :
      Step db (handle_timeout db rid now).1
  | advance (db : DB) (rid : String) (now : Int) :
      Step db (process_queue db rid now).1
  | recover (db : DB) (now : Int) :
      Step db (restore_timers db now)

/-- Zero or more serialized steps. -/
inductive Reachable : DB → DB → Prop where
  | refl (db : DB) : Reachable db db
  | tail {a b c : DB} : Reachable a b → Step b c → Reachable a c

/-- Initial states: every resource Idle (no holder, no deadline), distinct
resource ids, empty queue table, no timers. -/
def Init (db : DB) : Prop :=
  (db.resources.map (fun r => r.id)).Nodup ∧
  (∀ r ∈ db.resources, r.current_holder_id = none ∧ r.active_offer_expires_at = none) ∧
  db.queue_items = [] ∧ db.offer_tasks = []

instance {ε α : Type} [DecidableEq ε] [DecidableEq α] : DecidableEq (Except ε α) :=
  fun x y =>
    match x, y with
    | .ok a, .ok b =>
      if h : a = b then .isTrue (h ▸ rfl) else .isFalse (fun hh => h (Except.ok.inj hh))
    | .error a, .error b =>
      if h : a = b then .isTrue (h ▸ rfl) else .isFalse (fun hh => h (Except.error.inj hh))
    | .ok _, .error _ => .isFalse (fun hh => Except.noConfusion hh)
    | .error _, .ok _ => .isFalse (fun hh => Except.noConfusion hh)

instance (db : DB) : Decidable (Init db) := by
  unfold Init; infer_instance

/-- Resource "R": Idle, 60-second offers. -/
def idleR : ResourceRec :=
  { id := "R", timeout_seconds := 60, current_holder_id := none,
    active_offer_expires_at := none }

/-- Empty initial database containing only the Idle resource "R". -/
def dbR : DB :=
  { resources := [idleR], queue_items := [], users := [], next_user_id := 1,
    offer_tasks := [], broadcasts := 0 }

/-- Database with no resources at all. -/
def dbEmpty : DB :=
  { resources := [], queue_items := [], users := [], next_user_id := 1,
    offer_tasks := [], broadcasts := 0 }

/-- Resource "R" persisted with a deadline 10 seconds in the past (relative
to instant 0) and claimant 1 at the head of its queue, as after a crash
while an offer was pending. -/
def dbExpired : DB :=
  { resources := [{ idleR with active_offer_expires_at := some (-10) }],
    queue_items := [{ resource_id := "R", user_id := 1, order := 1 }],
    users := [1], next_user_id := 2, offer_tasks := [], broadcasts := 0 }

/-- Resources "R" and "B", with claimant 7 queued on "B" only. -/
def dbCross : DB :=
  { resources := [idleR, { idleR with id := "B" }],
    queue_items := [{ resource_id := "B", user_id := 7, order := 1 }],
    users := [7], next_user_id := 8, offer_tasks := [], broadcasts := 0 }

/-- Per-resource mutual-exclusion property: a held resource has no active
offer deadline. -/
def ResOk (r : ResourceRec) : Prop :=
  r.current_holder_id.isSome → r.active_offer_expires_at = none

/-- State invariant backing claim C5: resource ids are distinct and every
resource satisfies `ResOk`. -/
def HolderInv (db : DB) : Prop :=
  (db.resources.map (fun r => r.id)).Nodup ∧ ∀ r ∈ db.resources, ResOk r

/-- State invariant backing claim C9: at most one scheduled timeout task per
resource. -/
def TasksInv (db : DB) : Prop :=
  db.offer_tasks.Nodup

theorem sqlMax_nil_iff {l : List Int} : sqlMax l = none ↔ l = [] := by
  cases l with
  | nil => simp [sqlMax]
  | cons x xs =>
    unfold sqlMax
    cases sqlMax xs <;> simp

theorem le_sqlMax {l : List Int} {x m : Int} (hx : x ∈ l) (hm : sqlMax l = some m) :
    x ≤ m := by
  induction l generalizing m with
  | nil => cases hx
  | cons y ys ih =>
    unfold sqlMax at hm
    cases hys : sqlMax ys with
    | none =>
      rw [hys] at hm
      have hempty : ys = [] := sqlMax_nil_iff.mp hys
      subst hempty
      rcases List.mem_singleton.mp hx with rfl
      exact le_of_eq (Option.some.inj hm)
    | some m' =>
      rw [hys] at hm
      rcases Option.some.inj hm with rfl
      rcases List.mem_cons.mp hx with rfl | hmem
      · exact le_max_left _ _
      · exact le_trans (ih hmem hys) (le_max_right _ _)

theorem le_maxOrder {db : DB} {rid : String} {i : QueueItem}
    (h : i ∈ resourceItems db rid) : i.order ≤ maxOrder db rid := by
  unfold maxOrder
  cases hm : sqlMax ((resourceItems db rid).map (fun i => i.order)) with
  | none =>
    have : (resourceItems db rid).map (fun i => i.order) = [] := sqlMax_nil_iff.mp hm
    rw [List.map_eq_nil_iff] at this
    rw [this] at h
    cases h
  | some m =>
    simpa using le_sqlMax (List.mem_map_of_mem _ h) hm

theorem headItem?_nil_iff {l : List QueueItem} : headItem? l = none ↔ l = [] := by
  cases l with
  | nil => simp [headItem?]
  | cons x xs =>
    unfold headItem?
    cases headItem? xs with
    | none => simp
    | some b => by_cases h : b.order < x.order <;> simp [h]

theorem headItem?_mem {l : List QueueItem} {h0 : QueueItem}
    (h : headItem? l = some h0) : h0 ∈ l := by
  induction l generalizing h0 with
  | nil => cases h
  | cons x xs ih =>
    unfold headItem? at h
    split at h
    · rcases Option.some.inj h with rfl
      exact List.mem_cons_self _ _
    · rename_i b hb
      split at h
      · rcases Option.some.inj h with rfl
        exact List.mem_cons_of_mem _ (ih hb)
      · rcases Option.some.inj h with rfl
        exact List.mem_cons_self _ _

theorem headItem?_min {l : List QueueItem} {h0 : QueueItem}
    (h : headItem? l = some h0) : ∀ x ∈ l, h0.order ≤ x.order := by
  induction l generalizing h0 with
  | nil => cases h
  | cons y ys ih =>
    unfold headItem? at h
    intro x hx
    split at h
    · rename_i hys
      rcases Option.some.inj h with rfl
      have : ys = [] := headItem?_nil_iff.mp hys
      subst this
      rcases List.mem_singleton.mp hx with rfl
      exact le_refl _
    · rename_i b hys
      split at h
      · rename_i hlt
        rcases Option.some.inj h with rfl
        rcases List.mem_cons.mp hx with rfl | hmem
        · exact le_of_lt hlt
        · exact ih hys x hmem
      · rename_i hlt
        rcases Option.some.inj h with rfl
        rcases List.mem_cons.mp hx with rfl | hmem
        · exact le_refl _
        · exact le_trans (le_of_not_lt hlt) (ih hys x hmem)

theorem headItem?_append (l : List QueueItem) (y : QueueItem) :
    headItem? (l ++ [y]) =
      match headItem? l with
      | none => some y
      | some h => if y.order < h.order then some y else some h := by
  induction l with
  | nil => simp [headItem?]
  | cons x xs ih =>
    show headItem? (x :: (xs ++ [y])) = _
    unfold headItem?
    rw [ih]
    cases hxs : headItem? xs with
    | none =>
      have : xs = [] := headItem?_nil_iff.mp hxs
      subst this
      by_cases h1 : y.order < x.order <;> simp [h1]
    | some b =>
      by_cases h1 : y.order < b.order <;> by_cases h2 : b.order < x.order <;>
        by_cases h3 : y.order < x.order <;> simp [h1, h2, h3] <;> omega

@[simp]
theorem broadcast_resources (db : DB) (rid : String) :
    (broadcast_update db rid).resources = db.resources := by
  unfold broadcast_update; split <;> rfl

@[simp]
theorem broadcast_queue_items (db : DB) (rid : String) :
    (broadcast_update db rid).queue_items = db.queue_items := by
  unfold broadcast_update; split <;> rfl

@[simp]
theorem broadcast_offer_tasks (db : DB) (rid : String) :
    (broadcast_update db rid).offer_tasks = db.offer_tasks := by
  unfold broadcast_update; split <;> rfl

@[simp]
theorem armTask_resources (db : DB) (rid : String) :
    (armTask db rid).resources = db.resources := rfl

@[simp]
theorem armTask_queue_items (db : DB) (rid : String) :
    (armTask db rid).queue_items = db.queue_items := rfl

@[simp]
theorem armTask_offer_tasks (db : DB) (rid : String) :
    (armTask db rid).offer_tasks = db.offer_tasks.erase rid ++ [rid] := rfl

@[simp]
theorem cancelTask_resources (db : DB) (rid : String) :
    (cancelTask db rid).resources = db.resources := rfl

@[simp]
theorem cancelTask_queue_items (db : DB) (rid : String) :
    (cancelTask db rid).queue_items = db.queue_items := rfl

@[simp]
theorem cancelTask_offer_tasks (db : DB) (rid : String) :
    (cancelTask db rid).offer_tasks = db.offer_tasks.erase rid := rfl

@[simp]
theorem updateResource_queue_items (db : DB) (rid : String) (f : ResourceRec → ResourceRec) :
    (updateResource db rid f).queue_items = db.queue_items := rfl

@[simp]
theorem updateResource_offer_tasks (db : DB) (rid : String) (f : ResourceRec → ResourceRec) :
    (updateResource db rid f).offer_tasks = db.offer_tasks := rfl

theorem getResource_mem {db : DB} {rid : String} {res : ResourceRec}
    (h : getResource db rid = some res) : res ∈ db.resources ∧ res.id = rid := by
  unfold getResource at h
  refine ⟨List.mem_of_find?_eq_some h, ?_⟩
  have := List.find?_some h
  simpa using this

theorem getResource_eq_of_mem {db : DB} {rid : String} {r res : ResourceRec}
    (hnd : (db.resources.map (fun r => r.id)).Nodup)
    (hres : getResource db rid = some res) (hr : r ∈ db.resources)
    (hid : r.id = rid) : r = res := by
  obtain ⟨hm, hi⟩ := getResource_mem hres
  exact List.inj_on_of_nodup_map hnd hr hm (by rw [hid, hi])

theorem find?_map_update {l : List ResourceRec} {rid : String}
    {f : ResourceRec → ResourceRec} {res : ResourceRec}
    (hid : ∀ r, (f r).id = r.id)
    (hres : l.find? (fun r => r.id == rid) = some res) :
    (l.map (fun r => if r.id == rid then f r else r)).find? (fun r => r.id == rid) =
      some (f res) := by
  induction l with
  | nil => cases hres
  | cons x xs ih =>
    by_cases hx : x.id = rid
    · have hxb : (fun (r : ResourceRec) => r.id == rid) x = true := by simpa using hx
      rw [@List.find?_cons_of_pos ResourceRec (fun r => r.id == rid) x xs hxb] at hres
      rcases Option.some.inj hres with rfl
      have hx2 : (fun (r : ResourceRec) => r.id == rid)
          (if (x.id == rid) = true then f x else x) = true := by
        simp only [if_pos hxb]
        simpa [hid] using hx
      simp only [List.map_cons]
      rw [@List.find?_cons_of_pos ResourceRec (fun r => r.id == rid) _ _ hx2]
      rw [if_pos hxb]
    · have hxb : ¬ (fun (r : ResourceRec) => r.id == rid) x = true := by simpa using hx
      rw [@List.find?_cons_of_neg ResourceRec (fun r => r.id == rid) x xs hxb] at hres
      have hx2 : ¬ (fun (r : ResourceRec) => r.id == rid)
          (if (x.id == rid) = true then f x else x) = true := by
        rw [if_neg hxb]
        simpa using hx
      simp only [List.map_cons]
      rw [@List.find?_cons_of_neg ResourceRec (fun r => r.id == rid) _ _ hx2]
      exact ih hres

theorem getResource_updateResource {db : DB} {rid : String}
    {f : ResourceRec → ResourceRec} {res : ResourceRec}
    (hid : ∀ r, (f r).id = r.id)
    (hres : getResource db rid = some res) :
    getResource (updateResource db rid f) rid = some (f res) :=
  find?_map_update hid hres

theorem ids_updateResource (db : DB) (rid : String) (f : ResourceRec → ResourceRec)
    (hid : ∀ r, (f r).id = r.id) :
    (updateResource db rid f).resources.map (fun r => r.id) =
      db.resources.map (fun r => r.id) := by
  unfold updateResource
  simp only [List.map_map]
  apply List.map_congr_left
  intro r _
  by_cases h : r.id = rid <;> simp [h, hid]

theorem resOk_updateResource {db : DB} {rid : String}
    {f : ResourceRec → ResourceRec} {res : ResourceRec}
    (hnd : (db.resources.map (fun r => r.id)).Nodup)
    (hres : getResource db rid = some res)
    (hfres : ResOk (f res))
    (hinv : ∀ r ∈ db.resources, ResOk r) :
    ∀ r ∈ (updateResource db rid f).resources, ResOk r := by
  intro r hr
  unfold updateResource at hr
  simp only [List.mem_map] at hr
  obtain ⟨s, hs, hval⟩ := hr
  by_cases hsid : s.id = rid
  · have : s = res := getResource_eq_of_mem hnd hres hs hsid
    subst this
    rw [← hval, if_pos (by simpa using hsid)]
    exact hfres
  · rw [← hval, if_neg (by simpa using hsid)]
    exact hinv s hs

theorem holderInv_updateResource {db : DB} {rid : String}
    {f : ResourceRec → ResourceRec} {res : ResourceRec}
    (hid : ∀ r, (f r).id = r.id)
    (hres : getResource db rid = some res)
    (hfres : ResOk (f res))
    (hinv : HolderInv db) :
    HolderInv (updateResource db rid f) := by
  refine ⟨?_, resOk_updateResource hinv.1 hres hfres hinv.2⟩
  rw [ids_updateResource db rid f hid]
  exact hinv.1

theorem holderInv_of_resources_eq {a b : DB} (h : HolderInv a)
    (hab : b.resources = a.resources) : HolderInv b := by
  unfold HolderInv at *
  rw [hab]
  exact h

theorem tasksInv_of_tasks_eq {a b : DB} (h : TasksInv a)
    (hab : b.offer_tasks = a.offer_tasks) : TasksInv b := by
  unfold TasksInv at *
  rw [hab]
  exact h

theorem holderInv_broadcast (db : DB) (rid : String) (h : HolderInv db) :
    HolderInv (broadcast_update db rid) :=
  holderInv_of_resources_eq h (broadcast_resources db rid)

theorem holderInv_armTask (db : DB) (rid : String) (h : HolderInv db) :
    HolderInv (armTask db rid) :=
  holderInv_of_resources_eq h rfl

theorem holderInv_cancelTask (db : DB) (rid : String) (h : HolderInv db) :
    HolderInv (cancelTask db rid) :=
  holderInv_of_resources_eq h rfl

theorem holderInv_set_queue (db : DB) (qs : List QueueItem) (h : HolderInv db) :
    HolderInv { db with queue_items := qs } :=
  holderInv_of_resources_eq h rfl

theorem tasksInv_updateResource (db : DB) (rid : String) (f : ResourceRec → ResourceRec)
    (h : TasksInv db) : TasksInv (updateResource db rid f) :=
  tasksInv_of_tasks_eq h rfl

theorem tasksInv_set_queue (db : DB) (qs : List QueueItem) (h : TasksInv db) :
    TasksInv { db with queue_items := qs } :=
  tasksInv_of_tasks_eq h rfl

theorem tasksInv_broadcast (db : DB) (rid : String) (h : TasksInv db) :
    TasksInv (broadcast_update db rid) :=
  tasksInv_of_tasks_eq h (broadcast_offer_tasks db rid)

theorem nodup_erase_append {α : Type} [DecidableEq α] {l : List α} (a : α)
    (h : l.Nodup) : (l.erase a ++ [a]).Nodup := by
  rw [List.nodup_append]
  refine ⟨h.erase a, List.nodup_singleton a, ?_⟩
  intro x hx hx'
  rcases List.mem_singleton.mp hx' with rfl
  rw [h.mem_erase_iff] at hx
  exact hx.1 rfl

theorem tasksInv_armTask (db : DB) (rid : String) (h : TasksInv db) :
    TasksInv (armTask db rid) :=
  nodup_erase_append rid h

theorem tasksInv_cancelTask (db : DB) (rid : String) (h : TasksInv db) :
    TasksInv (cancelTask db rid) :=
  h.erase rid

theorem holderInv_process_queue (db : DB) (rid : String) (now : Int)
    (h : HolderInv db) : HolderInv (process_queue db rid now).1 := by
  unfold process_queue
  split
  · exact h
  · rename_i res hres
    split
    · exact h
    · rename_i hh
      split
      · exact h
      · exact holderInv_broadcast _ _
          (holderInv_armTask _ _
            (holderInv_updateResource (fun r => rfl) hres
              (fun hs => absurd hs hh) h))

theorem tasksInv_process_queue (db : DB) (rid : String) (now : Int)
    (h : TasksInv db) : TasksInv (process_queue db rid now).1 := by
  unfold process_queue
  split
  · exact h
  · split
    · exact h
    · split
      · exact h
      · exact tasksInv_broadcast _ _ (tasksInv_armTask _ _ h)

theorem join_fst_cases (db : DB) (rid : String) (uo : Option Nat) (now : Int) :
    ((join_queue db rid uo now).1.resources = db.resources ∧
     (join_queue db rid uo now).1.offer_tasks = db.offer_tasks) ∨
    ∃ db2 : DB, (join_queue db rid uo now).1 = (process_queue db2 rid now).1 ∧
      db2.resources = db.resources ∧ db2.offer_tasks = db.offer_tasks := by
  simp only [join_queue]
  generalize hG : (if (resolveUser db uo).isSome = true then db else createUser db) = dbU
  have hr : dbU.resources = db.resources := by
    rw [← hG]
    split <;> rfl
  have ht : dbU.offer_tasks = db.offer_tasks := by
    rw [← hG]
    split <;> rfl
  split
  · exact Or.inl ⟨rfl, rfl⟩
  · split
    · exact Or.inl ⟨hr, ht⟩
    · split
      · exact Or.inl ⟨by rw [broadcast_resources]; exact hr,
          by rw [broadcast_offer_tasks]; exact ht⟩
      · split
        · rename_i heq
          exact Or.inr ⟨_, by rw [heq],
            by rw [broadcast_resources]; exact hr,
            by rw [broadcast_offer_tasks]; exact ht⟩
        · rename_i heq
          exact Or.inr ⟨_, by rw [heq],
            by rw [broadcast_resources]; exact hr,
            by rw [broadcast_offer_tasks]; exact ht⟩

theorem holderInv_join (db : DB) (rid : String) (uo : Option Nat) (now : Int)
    (h : HolderInv db) : HolderInv (join_queue db rid uo now).1 := by
  rcases join_fst_cases db rid uo now with ⟨hr, _⟩ | ⟨db2, heq, hr, _⟩
  · exact holderInv_of_resources_eq h hr
  · rw [heq]
    exact holderInv_process_queue db2 rid now (holderInv_of_resources_eq h hr)

theorem tasksInv_join (db : DB) (rid : String) (uo : Option Nat) (now : Int)
    (h : TasksInv db) : TasksInv (join_queue db rid uo now).1 := by
  rcases join_fst_cases db rid uo now with ⟨_, ht⟩ | ⟨db2, heq, _, ht⟩
  · exact tasksInv_of_tasks_eq h ht
  · rw [heq]
    exact tasksInv_process_queue db2 rid now (tasksInv_of_tasks_eq h ht)

theorem holderInv_release (db : DB) (rid : String) (uid : Nat) (now : Int)
    (h : HolderInv db) : HolderInv (release_resource db rid uid now).1 := by
  simp only [release_resource]
  split
  · exact h
  · rename_i res hres
    split
    · split
      · rename_i db3 e heq
        rw [show db3 = (process_queue _ rid now).1 from by rw [heq]]
        exact holderInv_process_queue _ rid now
          (holderInv_broadcast _ _
            (holderInv_updateResource (fun r => rfl) hres
              (fun hs => by simp at hs) h))
      · rename_i db3 heq
        rw [show db3 = (process_queue _ rid now).1 from by rw [heq]]
        exact holderInv_process_queue _ rid now
          (holderInv_broadcast _ _
            (holderInv_updateResource (fun r => rfl) hres
              (fun hs => by simp at hs) h))
    · exact h

theorem tasksInv_release (db : DB) (rid : String) (uid : Nat) (now : Int)
    (h : TasksInv db) : TasksInv (release_resource db rid uid now).1 := by
  simp only [release_resource]
  split
  · exact h
  · split
    · split
      · rename_i db3 e heq
        rw [show db3 = (process_queue _ rid now).1 from by rw [heq]]
        exact tasksInv_process_queue _ rid now (tasksInv_broadcast _ _ h)
      · rename_i db3 heq
        rw [show db3 = (process_queue _ rid now).1 from by rw [heq]]
        exact tasksInv_process_queue _ rid now (tasksInv_broadcast _ _ h)
    · exact h

theorem holderInv_accept (db : DB) (rid : String) (uid : Nat)
    (h : HolderInv db) : HolderInv (accept_offer db rid uid).1 := by
  simp only [accept_offer]
  split
  · exact h
  · split
    · exact h
    · split
      · exact h
      · rename_i res hres
        split
        · exact h
        · exact holderInv_broadcast _ _
            (holderInv_cancelTask _ _
              (holderInv_set_queue _ _
                (holderInv_updateResource (fun r => rfl) hres (fun _ => rfl) h)))

theorem tasksInv_accept (db : DB) (rid : String) (uid : Nat)
    (h : TasksInv db) : TasksInv (accept_offer db rid uid).1 := by
  simp only [accept_offer]
  split
  · exact h
  · split
    · exact h
    · split
      · exact h
      · split
        · exact h
        · exact tasksInv_broadcast _ _
            (tasksInv_cancelTask _ _
              (tasksInv_set_queue _ _ (tasksInv_updateResource _ _ _ h)))

theorem holderInv_reject (db : DB) (rid : String) (uid : Nat) (now : Int)
    (h : HolderInv db) : HolderInv (reject_offer db rid uid now).1 := by
  simp only [reject_offer]
  split
  · exact h
  · rename_i first hfirst
    split
    · exact h
    · split
      · exact h
      · rename_i res hres
        split
        · exact h
        · have hres1 : getResource
              { db with queue_items := db.queue_items.erase first } rid = some res := hres
          split
          · rename_i db4 e heq
            rw [show db4 = (process_queue _ rid now).1 from by rw [heq]]
            exact holderInv_process_queue _ rid now
              (holderInv_broadcast _ _
                (holderInv_cancelTask _ _
                  (holderInv_updateResource (fun r => rfl) hres1 (fun _ => rfl)
                    (holderInv_set_queue _ _ h))))
          · rename_i db4 heq
            rw [show db4 = (process_queue _ rid now).1 from by rw [heq]]
            exact holderInv_process_queue _ rid now
              (holderInv_broadcast _ _
                (holderInv_cancelTask _ _
                  (holderInv_updateResource (fun r => rfl) hres1 (fun _ => rfl)
                    (holderInv_set_queue _ _ h))))

theorem tasksInv_reject (db : DB) (rid : String) (uid : Nat) (now : Int)
    (h : TasksInv db) : TasksInv (reject_offer db rid uid now).1 := by
  simp only [reject_offer]
  split
  · exact h
  · split
    · exact h
    · split
      · exact h
      · split
        · exact h
        · split
          · rename_i db4 e heq
            rw [show db4 = (process_queue _ rid now).1 from by rw [heq]]
            exact tasksInv_process_queue _ rid now
              (tasksInv_broadcast _ _
                (tasksInv_cancelTask _ _
                  (tasksInv_updateResource _ _ _ (tasksInv_set_queue _ _ h))))
          · rename_i db4 heq
            rw [show db4 = (process_queue _ rid now).1 from by rw [heq]]
            exact tasksInv_process_queue _ rid now
              (tasksInv_broadcast _ _
                (tasksInv_cancelTask _ _
                  (tasksInv_updateResource _ _ _ (tasksInv_set_queue _ _ h))))

theorem holderInv_leave (db : DB) (rid : String) (uid : Nat) (now : Int)
    (h : HolderInv db) : HolderInv (leave_queue db rid uid now).1 := by
  simp only [leave_queue]
  split
  · exact h
  · rename_i qitem hq
    split
    · exact h
    · rename_i res hres
      have hres1 : getResource
          { db with queue_items := db.queue_items.erase qitem } rid = some res := hres
      have hbase : ∀ w : Bool, HolderInv (broadcast_update
          (if w = true then cancelTask (updateResource
              { db with queue_items := db.queue_items.erase qitem } rid
              (fun r => { r with active_offer_expires_at := none })) rid
            else { db with queue_items := db.queue_items.erase qitem }) rid) := by
        intro w
        cases w with
        | false =>
          exact holderInv_broadcast _ _ (holderInv_set_queue _ _ h)
        | true =>
          exact holderInv_broadcast _ _
            (holderInv_cancelTask _ _
              (holderInv_updateResource (fun r => rfl) hres1 (fun _ => rfl)
                (holderInv_set_queue _ _ h)))
      split
      · split
        · rename_i db4 e heq
          rw [show db4 = (process_queue _ rid now).1 from by rw [heq]]
          exact holderInv_process_queue _ rid now (hbase true)
        · rename_i db4 heq
          rw [show db4 = (process_queue _ rid now).1 from by rw [heq]]
          exact holderInv_process_queue _ rid now (hbase true)
      · exact hbase false

theorem tasksInv_leave (db : DB) (rid : String) (uid : Nat) (now : Int)
    (h : TasksInv db) : TasksInv (leave_queue db rid uid now).1 := by
  simp only [leave_queue]
  split
  · exact h
  · rename_i qitem hq
    split
    · exact h
    · rename_i res hres
      have hbase : ∀ w : Bool, TasksInv (broadcast_update
          (if w = true then cancelTask (updateResource
              { db with queue_items := db.queue_items.erase qitem } rid
              (fun r => { r with active_offer_expires_at := none })) rid
            else { db with queue_items := db.queue_items.erase qitem }) rid) := by
        intro w
        cases w with
        | false => exact tasksInv_broadcast _ _ (tasksInv_set_queue _ _ h)
        | true =>
          exact tasksInv_broadcast _ _
            (tasksInv_cancelTask _ _
              (tasksInv_updateResource _ _ _ (tasksInv_set_queue _ _ h)))
      split
      · split
        · rename_i db4 e heq
          rw [show db4 = (process_queue _ rid now).1 from by rw [heq]]
          exact tasksInv_process_queue _ rid now (hbase true)
        · rename_i db4 heq
          rw [show db4 = (process_queue _ rid now).1 from by rw [heq]]
          exact tasksInv_process_queue _ rid now (hbase true)
      · exact hbase false

theorem holderInv_handle_timeout (db : DB) (rid : String) (now : Int)
    (h : HolderInv db) : HolderInv (handle_timeout db rid now).1 := by
  simp only [handle_timeout]
  split
  · exact h
  · rename_i res hres
    split
    · exact h
    · split
      · exact holderInv_process_queue _ rid now (holderInv_broadcast _ _ h)
      · rename_i timed htimed
        have hres1 : getResource { db with
            queue_items := setItemOrder db.queue_items timed (maxOrder db rid + 1) } rid =
              some res := hres
        exact holderInv_process_queue _ rid now
          (holderInv_broadcast _ _
            (holderInv_updateResource (fun r => rfl) hres1 (fun _ => rfl)
              (holderInv_set_queue _ _ h)))

theorem tasksInv_handle_timeout (db : DB) (rid : String) (now : Int)
    (h : TasksInv db) : TasksInv (handle_timeout db rid now).1 := by
  simp only [handle_timeout]
  split
  · exact h
  · split
    · exact h
    · split
      · exact tasksInv_process_queue _ rid now (tasksInv_broadcast _ _ h)
      · exact tasksInv_process_queue _ rid now
          (tasksInv_broadcast _ _
            (tasksInv_updateResource _ _ _ (tasksInv_set_queue _ _ h)))

theorem holderInv_restore_timers (db : DB) (now : Int)
    (h : HolderInv db) : HolderInv (restore_timers db now) := by
  unfold restore_timers
  generalize (db.resources.filter _) = rs
  induction rs generalizing db with
  | nil => exact h
  | cons r rest ih =>
    rw [List.foldl_cons]
    apply ih
    split
    · split
      · exact holderInv_armTask _ _ h
      · exact holderInv_handle_timeout _ _ _ h
    · exact h

theorem tasksInv_restore_timers (db : DB) (now : Int)
    (h : TasksInv db) : TasksInv (restore_timers db now) := by
  unfold restore_timers
  generalize (db.resources.filter _) = rs
  induction rs generalizing db with
  | nil => exact h
  | cons r rest ih =>
    rw [List.foldl_cons]
    apply ih
    split
    · split
      · exact tasksInv_armTask _ _ h
      · exact tasksInv_handle_timeout _ _ _ h
    · exact h

theorem holderInv_step {a b : DB} (s : Step a b) (h : HolderInv a) : HolderInv b := by
  cases s with
  | join rid uo now => exact holderInv_join a rid uo now h
  | release rid uid now => exact holderInv_release a rid uid now h
  | accept rid uid => exact holderInv_accept a rid uid h
  | reject rid uid now => exact holderInv_reject a rid uid now h
  | leave rid uid now => exact holderInv_leave a rid uid now h
  | fire rid now hm => exact holderInv_handle_timeout a rid now h
  | advance rid now => exact holderInv_process_queue a rid now h
  | recover now => exact holderInv_restore_timers a now h

theorem tasksInv_step {a b : DB} (s : Step a b) (h : TasksInv a) : TasksInv b := by
  cases s with
  | join rid uo now => exact tasksInv_join a rid uo now h
  | release rid uid now => exact tasksInv_release a rid uid now h
  | accept rid uid => exact tasksInv_accept a rid uid h
  | reject rid uid now => exact tasksInv_reject a rid uid now h
  | leave rid uid now => exact tasksInv_leave a rid uid now h
  | fire rid now hm => exact tasksInv_handle_timeout a rid now h
  | advance rid now => exact tasksInv_process_queue a rid now h
  | recover now => exact tasksInv_restore_timers a now h

theorem holderInv_init {db : DB} (h : Init db) : HolderInv db := by
  refine ⟨h.1, fun r hr hs => ?_⟩
  exact (h.2.1 r hr).2

theorem tasksInv_init {db : DB} (h : Init db) : TasksInv db := by
  show db.offer_tasks.Nodup
  rw [h.2.2.2]
  exact List.nodup_nil

theorem holderInv_reachable {a b : DB} (h0 : HolderInv a) (hr : Reachable a b) :
    HolderInv b := by
  induction hr with
  | refl => exact h0
  | tail _ s ih => exact holderInv_step s ih

theorem tasksInv_reachable {a b : DB} (h0 : TasksInv a) (hr : Reachable a b) :
    TasksInv b := by
  induction hr with
  | refl => exact h0
  | tail _ s ih => exact tasksInv_step s ih

theorem process_queue_fst_queue_items (db : DB) (rid : String) (now : Int) :
    (process_queue db rid now).1.queue_items = db.queue_items := by
  unfold process_queue
  split
  · rfl
  · split
    · rfl
    · split
      · rfl
      · simp

theorem getResource_broadcast (db : DB) (rid' rid : String) :
    getResource (broadcast_update db rid') rid = getResource db rid := by
  unfold getResource
  rw [broadcast_resources]

theorem process_queue_getResource {db : DB} {rid : String} {res : ResourceRec}
    (now : Int) (hres : getResource db rid = some res) :
    getResource (process_queue db rid now).1 rid = some res ∨
    getResource (process_queue db rid now).1 rid =
      some { res with active_offer_expires_at := some (now + res.timeout_seconds) } := by
  unfold process_queue
  split
  · rename_i hnone
    rw [hres] at hnone
    cases hnone
  · rename_i res' hres'
    rw [hres] at hres'
    rcases Option.some.inj hres' with rfl
    split
    · exact Or.inl hres
    · split
      · exact Or.inl hres
      · right
        rw [getResource_broadcast]
        exact getResource_updateResource (fun r => rfl) hres

theorem mem_setItemOrder {l : List QueueItem} {it : QueueItem} (h : it ∈ l) (o : Int) :
    { it with order := o } ∈ setItemOrder l it o := by
  induction l with
  | nil => cases h
  | cons x xs ih =>
    unfold setItemOrder
    by_cases hx : x = it
    · subst hx
      simp
    · rw [if_neg (by simpa using hx)]
      rcases List.mem_cons.mp h with rfl | hmem
      · exact absurd rfl hx
      · exact List.mem_cons_of_mem _ (ih hmem)

theorem filter_erase_of_filter_singleton {l : List QueueItem} {p : QueueItem → Bool}
    {a : QueueItem} (h : l.filter p = [a]) : (l.erase a).filter p = [] := by
  induction l with
  | nil => simp at h
  | cons x xs ih =>
    by_cases hx : p x = true
    · rw [List.filter_cons_of_pos hx] at h
      have hxa : x = a := by
        have := List.head_eq_of_cons_eq h
        exact this
      have hxs : xs.filter p = [] := List.tail_eq_of_cons_eq h
      subst hxa
      rw [List.erase_cons_head]
      exact hxs
    · rw [List.filter_cons_of_neg (by simpa using hx)] at h
      have hxa : x ≠ a := by
        intro hcontra
        subst hcontra
        have : x ∈ xs.filter p := by rw [h]; exact List.mem_singleton_self _
        exact hx (List.mem_filter.mp this).2
      rw [List.erase_cons_tail]
      · rw [List.filter_cons_of_neg (by simpa using hx)]
        exact ih h
      · simpa using hxa

theorem resolveUser_known {db : DB} {u : Nat}
    (hu : db.users.contains u = true) (hnz : u ≠ 0) :
    resolveUser db (some u) = some u := by
  have hb : (u != 0 && db.users.contains u) = true := by
    rw [hu, Bool.and_true]
    simpa using hnz
  show (if (u != 0 && db.users.contains u) = true then some u else none) = some u
  rw [if_pos hb]

theorem join_queue_items_append (db : DB) (rid : String) (uo : Option Nat) (now : Int)
    (hany : ((if (resolveUser db uo).isSome = true then db else createUser db).queue_items.any
      (fun i => i.user_id == (resolveUser db uo).getD db.next_user_id)) = false) :
    (join_queue db rid uo now).1.queue_items =
      (if (resolveUser db uo).isSome = true then db else createUser db).queue_items ++
        [{ resource_id := rid,
           user_id := (resolveUser db uo).getD db.next_user_id,
           order := maxOrder
             (if (resolveUser db uo).isSome = true then db else createUser db) rid + 1 }] := by
  simp only [join_queue]
  generalize hG : (if (resolveUser db uo).isSome = true then db else createUser db) = dbU at hany ⊢
  rw [hany]
  simp only [Bool.false_eq_true, if_false]
  split
  · rfl
  · split
    · simp
    · split
      · rename_i db3 e heq
        rw [show db3 = (process_queue _ rid now).1 from by rw [heq]]
        rw [process_queue_fst_queue_items]
        simp
      · rename_i db3 heq
        rw [show db3 = (process_queue _ rid now).1 from by rw [heq]]
        rw [process_queue_fst_queue_items]
        simp

theorem join_known_new_queue_items (db : DB) (rid : String) (u : Nat) (now : Int)
    (hu : db.users.contains u = true) (hnz : u ≠ 0)
    (hnew : db.queue_items.any (fun i => i.user_id == u) = false) :
    (join_queue db rid (some u) now).1.queue_items =
      db.queue_items ++
        [{ resource_id := rid, user_id := u, order := maxOrder db rid + 1 }] := by
  have hresolve := resolveUser_known hu hnz
  have hany' : ((if (resolveUser db (some u)).isSome = true then db
      else createUser db).queue_items.any
      (fun i => i.user_id == (resolveUser db (some u)).getD db.next_user_id)) = false := by
    rw [hresolve]
    simpa using hnew
  have h2 := join_queue_items_append db rid (some u) now hany'
  rw [hresolve] at h2
  simpa using h2

/-- The chain for the order-key-reuse scenario on the single Idle resource
"R": claimant 1 joins (key 1, offer made to 1), claimant 2 joins
(key 2). -/
def dbChainB : DB := (join_queue (join_queue dbR "R" none 0).1 "R" none 0).1

/-- Continuation: claimant 2 leaves the queue (its key-2 item is deleted). -/
def dbChainC : DB := (leave_queue dbChainB "R" 2 0).1

/-- Continuation: claimant 3 joins; the current maximum key is 1 again, so
claimant 3 is assigned key 2 — the key that had been claimant 2's. -/
def dbChainD : DB := (join_queue dbChainC "R" none 0).1

/-- C1: the claim says Recover immediately invokes the expiry step for a
resource persisted with a deadline already in the past, so that no resource
stays stuck Offered after a restart.  The code does the opposite: the
recovery query selects only resources with `active_offer_expires_at >
utcnow()`, so a resource whose deadline passed while the process was down is
never selected and `restore_timers` leaves the whole state — the stale
deadline, the head claimant's position, the empty timer registry, the
snapshot count — completely unchanged.  `dbExpired` holds resource "R" with a
deadline 10 seconds in the past (at instant 0) and claimant 1 at the head of
its queue. -/
theorem restore_timers_skips_expired_deadline :
    restore_timers dbExpired 0 = dbExpired ∧
    (getResource dbExpired "R").map (fun r => r.active_offer_expires_at) =
      some (some (-10)) ∧
    headItem dbExpired "R" = some { resource_id := "R", user_id := 1, order := 1 } ∧
    dbExpired.offer_tasks = [] := by
  exact ⟨by decide, by decide, by decide, by decide⟩

/-- C3 (code bug): join on an unknown resource does not return a failure
result — it raises.  In `dbEmpty` no resource named "missing" exists; the
call creates user 1, commits a queue item for the missing resource (a state
change), and then dereferences `None` at queue_manager.py line 85
(`resource.active_offer_expires_at`), raising `AttributeError` instead of
returning a boolean/result. -/
theorem join_unknown_resource_raises :
    (join_queue dbEmpty "missing" none 0).2 = Except.error PyError.attributeError ∧
    (join_queue dbEmpty "missing" none 0).1.queue_items =
      [{ resource_id := "missing", user_id := 1, order := 1 }] := by
  exact ⟨by decide, by decide⟩

/-- C2 counterexample: the claim says Join is idempotent per (resource,
claimant) pair, and that a claimant queued only on other resources gets a
new queue item appended for this resource.  In `dbCross`, claimant 7 has a
queue item only for resource "B"; joining resource "R" nevertheless takes
the early idempotent return (the check at queue_manager.py line 70 filters
by `user_id` alone, with no resource filter), returns 7 and appends nothing:
the queue of "R" stays empty. -/
theorem join_crossResource_counterexample :
    join_queue dbCross "R" (some 7) 0 = (dbCross, Except.ok 7) ∧
    dbCross.queue_items.filter
      (fun i => i.resource_id == "B" && i.user_id == 7) =
      [{ resource_id := "B", user_id := 7, order := 1 }] ∧
    (join_queue dbCross "R" (some 7) 0).1.queue_items.filter
      (fun i => i.resource_id == "R") = [] := by
  exact ⟨by decide, by decide, by decide⟩

/-- C2 as amended: Join is idempotent per claimant across all resources —
if the claimant has a queue item for any resource, Join returns the
claimant's identifier with no effect at all; only a claimant with no queue
item anywhere gets a new item appended for this resource, with order key
equal to the current maximum order key of this resource's queue plus one
(or 1 if that queue is empty, since the SQL max is then `None`, read as
0). -/
theorem join_idempotent_amended (db : DB) (rid : String) (u : Nat) (now : Int)
    (hu : db.users.contains u = true) (hnz : u ≠ 0) :
    (db.queue_items.any (fun i => i.user_id == u) = true →
      join_queue db rid (some u) now = (db, Except.ok u)) ∧
    (db.queue_items.any (fun i => i.user_id == u) = false →
      (join_queue db rid (some u) now).1.queue_items =
        db.queue_items ++
          [{ resource_id := rid, user_id := u, order := maxOrder db rid + 1 }]) := by
  have hresolve := resolveUser_known hu hnz
  constructor
  · intro hany
    simp [join_queue, hresolve, hany]
  · intro hany
    exact join_known_new_queue_items db rid u now hu hnz hany

/-- Witness for the amended C2 at a concrete state: claimant 7 is queued on
"B" only, joining "R" is a no-op returning 7. -/
theorem join_idempotent_amended_witness :
    dbCross.users.contains 7 = true ∧ (7 : Nat) ≠ 0 ∧
    (dbCross.queue_items.any (fun i => i.user_id == 7) = true →
      join_queue dbCross "R" (some 7) 0 = (dbCross, Except.ok 7)) ∧
    (dbCross.queue_items.any (fun i => i.user_id == 7) = false →
      (join_queue dbCross "R" (some 7) 0).1.queue_items =
        dbCross.queue_items ++
          [{ resource_id := "R", user_id := 7, order := maxOrder dbCross "R" + 1 }]) :=
  ⟨by decide, by decide,
    (join_idempotent_amended dbCross "R" 7 0 (by decide) (by decide)).1,
    (join_idempotent_amended dbCross "R" 7 0 (by decide) (by decide)).2⟩

/-- C4 counterexample: the claim says an order key, once assigned, is never
assigned again, even after queue items are deleted.  In the reachable run
behind `dbChainD`, key 2 of resource "R" is assigned to claimant 2 (second
join), claimant 2 then leaves (the item is deleted), and the next join
assigns the same key 2 to claimant 3, because the key is computed as the
maximum over the items *currently* in the queue plus one. -/
theorem order_key_reuse_counterexample :
    ({ resource_id := "R", user_id := 2, order := 2 } : QueueItem) ∈
      dbChainB.queue_items ∧
    dbChainC.queue_items.all (fun i => i.user_id != 2) = true ∧
    ({ resource_id := "R", user_id := 3, order := 2 } : QueueItem) ∈
      dbChainD.queue_items := by
  exact ⟨by decide, by decide, by decide⟩

/-- C4 as amended: every key assigned — by a join of a fresh claimant or by
the timeout requeue of the head — is strictly greater than every key
currently present in that resource's queue, so keys strictly increase as
long as the maximum-keyed item stays in the queue; but a key value is not
fresh forever: once the item holding the maximum key is deleted (accept,
reject or leave), a previously assigned key value can be assigned again. -/
theorem order_keys_fresh_amended (db : DB) (rid : String) (u : Nat) (now : Int)
    (res : ResourceRec) (t : QueueItem)
    (hu : db.users.contains u = true) (hnz : u ≠ 0)
    (hnew : db.queue_items.any (fun i => i.user_id == u) = false)
    (hres : getResource db rid = some res)
    (hdl : res.active_offer_expires_at.isSome = true)
    (hhead : headItem db rid = some t) :
    (∀ i ∈ resourceItems db rid, i.order < maxOrder db rid + 1) ∧
    ((join_queue db rid (some u) now).1.queue_items =
      db.queue_items ++
        [{ resource_id := rid, user_id := u, order := maxOrder db rid + 1 }]) ∧
    { t with order := maxOrder db rid + 1 } ∈
      (handle_timeout db rid now).1.queue_items := by
  refine ⟨?_, ?_, ?_⟩
  · intro i hi
    have := le_maxOrder hi
    omega
  · exact join_known_new_queue_items db rid u now hu hnz hnew
  · have hnotnone : res.active_offer_expires_at.isNone = false := by
      cases hres' : res.active_offer_expires_at with
      | none => rw [hres'] at hdl; simp at hdl
      | some d => simp
    have hq : (handle_timeout db rid now).1.queue_items =
        setItemOrder db.queue_items t (maxOrder db rid + 1) := by
      simp only [handle_timeout, hres, hnotnone, Bool.false_eq_true, if_false, hhead]
      rw [process_queue_fst_queue_items, broadcast_queue_items,
        updateResource_queue_items]
    rw [hq]
    have ht : t ∈ db.queue_items := (List.mem_filter.mp (headItem?_mem hhead)).1
    exact mem_setItemOrder ht _

/-- Resource "R" in the Offered state with deadline 60. -/
def resOffered : ResourceRec := { idleR with active_offer_expires_at := some 60 }

/-- Witness state: resource "R" offered to claimant 1 (sole queue item,
key 1); 2 is a known fresh claimant. -/
def dbOffered : DB :=
  { resources := [resOffered],
    queue_items := [{ resource_id := "R", user_id := 1, order := 1 }],
    users := [1, 2], next_user_id := 3, offer_tasks := ["R"], broadcasts := 0 }

theorem order_keys_fresh_amended_witness :
    dbOffered.users.contains 2 = true ∧ (2 : Nat) ≠ 0 ∧
    dbOffered.queue_items.any (fun i => i.user_id == 2) = false ∧
    getResource dbOffered "R" = some resOffered ∧
    resOffered.active_offer_expires_at.isSome = true ∧
    headItem dbOffered "R" = some { resource_id := "R", user_id := 1, order := 1 } ∧
    ((∀ i ∈ resourceItems dbOffered "R", i.order < maxOrder dbOffered "R" + 1) ∧
     ((join_queue dbOffered "R" (some 2) 0).1.queue_items =
       dbOffered.queue_items ++
         [{ resource_id := "R", user_id := 2, order := maxOrder dbOffered "R" + 1 }]) ∧
     { resource_id := "R", user_id := 1, order := maxOrder dbOffered "R" + 1 } ∈
       (handle_timeout dbOffered "R" 0).1.queue_items) :=
  ⟨by decide, by decide, by decide, by decide, by decide, by decide,
    order_keys_fresh_amended dbOffered "R" 2 0
      resOffered
      { resource_id := "R", user_id := 1, order := 1 }
      (by decide) (by decide) (by decide) (by decide) (by decide) (by decide)⟩

/-- C5: in every state reachable from an initial state of Idle resources by
join, release, accept, reject, leave, timeout-expiry, advance and recover, a
resource's holder and its active offer deadline are never both non-null:
whenever the holder is set, the deadline is null. -/
theorem holder_deadline_mutual_exclusion (db0 db : DB) (h0 : Init db0)
    (hr : Reachable db0 db) :
    ∀ r ∈ db.resources, r.current_holder_id.isSome = true →
      r.active_offer_expires_at = none := by
  have hinv := holderInv_reachable (holderInv_init h0) hr
  exact fun r hrm hs => hinv.2 r hrm hs

/-- State after claimant 1 joins the Idle resource "R": offered to 1. -/
def dbJoined : DB := (join_queue dbR "R" none 0).1

/-- State after claimant 1 accepts the offer on "R": held by 1. -/
def dbHeld : DB := (accept_offer dbJoined "R" 1).1

theorem holder_deadline_mutual_exclusion_witness :
    Init dbR ∧
    (∀ r ∈ dbHeld.resources, r.current_holder_id.isSome = true →
      r.active_offer_expires_at = none) :=
  ⟨by decide,
    holder_deadline_mutual_exclusion dbR dbHeld (by decide)
      (Reachable.tail (Reachable.tail (Reachable.refl dbR)
        (Step.join dbR "R" none 0)) (Step.accept dbJoined "R" 1))⟩

/-- C9: in every reachable state at most one expiry timer is outstanding per
resource — the count of a resource id in the registry of scheduled,
uncancelled timeout tasks never exceeds one.  The advance step maintains
this by always removing the resource's previous entry before storing the
fresh task. -/
theorem single_timer_per_resource (db0 db : DB) (h0 : Init db0)
    (hr : Reachable db0 db) :
    ∀ rid : String, db.offer_tasks.count rid ≤ 1 := by
  have hinv := tasksInv_reachable (tasksInv_init h0) hr
  exact fun rid => List.nodup_iff_count_le_one.mp hinv rid

theorem single_timer_per_resource_witness :
    Init dbR ∧ (∀ rid : String, dbJoined.offer_tasks.count rid ≤ 1) :=
  ⟨by decide,
    single_timer_per_resource dbR dbJoined (by decide)
      (Reachable.tail (Reachable.refl dbR) (Step.join dbR "R" none 0))⟩

/-- C10: Leave for a claimant with no queue item on the resource returns
false and changes nothing at all — no queue item deleted, resources
(holder, deadline) untouched, no timer cancelled, and no snapshot published
(the broadcast counter is part of the unchanged state). -/
theorem leave_queue_not_found_noop (db : DB) (rid : String) (uid : Nat) (now : Int)
    (h : db.queue_items.filter
      (fun i => i.resource_id == rid && i.user_id == uid) = []) :
    leave_queue db rid uid now = (db, Except.ok false) := by
  simp [leave_queue, h]

theorem leave_queue_not_found_noop_witness :
    dbR.queue_items.filter
      (fun i => i.resource_id == "R" && i.user_id == 5) = [] ∧
    leave_queue dbR "R" 5 0 = (dbR, Except.ok false) :=
  ⟨by decide, leave_queue_not_found_noop dbR "R" 5 0 (by decide)⟩

/-- C6: for an existing resource, Accept returns true exactly when the
resource has a non-null active offer deadline and the claimant is the head
of the queue; on success it sets the holder to the claimant, clears the
deadline, deletes the head queue item, and leaves no scheduled timeout task
for the resource (given the invariant that at most one was scheduled); in
every other case it returns false and changes no state. -/
theorem accept_offer_spec (db : DB) (rid : String) (uid : Nat) (res : ResourceRec)
    (hres : getResource db rid = some res)
    (hct : db.offer_tasks.count rid ≤ 1) :
    ((accept_offer db rid uid).2 = Except.ok true ↔
      (res.active_offer_expires_at.isSome = true ∧
       ∃ h0, headItem db rid = some h0 ∧ h0.user_id = uid)) ∧
    (∀ h0, headItem db rid = some h0 → h0.user_id = uid →
      res.active_offer_expires_at.isSome = true →
      getResource (accept_offer db rid uid).1 rid =
        some { res with current_holder_id := some uid,
                        active_offer_expires_at := none } ∧
      (accept_offer db rid uid).1.queue_items = db.queue_items.erase h0 ∧
      rid ∉ (accept_offer db rid uid).1.offer_tasks) ∧
    ((accept_offer db rid uid).2 ≠ Except.ok true →
      (accept_offer db rid uid).2 = Except.ok false ∧
      (accept_offer db rid uid).1 = db) := by
  cases hh : headItem db rid with
  | none =>
    have heq : accept_offer db rid uid = (db, Except.ok false) := by
      simp [accept_offer, hh]
    rw [heq]
    refine ⟨?_, ?_, ?_⟩
    · constructor
      · intro hc
        simp at hc
      · rintro ⟨-, h0, hcon, -⟩
        cases hcon
    · intro h0 hcon
      cases hcon
    · intro _
      exact ⟨rfl, rfl⟩
  | some h0 =>
    by_cases hu : h0.user_id = uid
    · by_cases hd : res.active_offer_expires_at.isSome = true
      · have hd' : res.active_offer_expires_at.isNone = false := by
          cases hx : res.active_offer_expires_at with
          | none => rw [hx] at hd; simp at hd
          | some d => simp
        refine ⟨?_, ?_, ?_⟩
        · constructor
          · intro _
            exact ⟨hd, h0, rfl, hu⟩
          · intro _
            simp [accept_offer, hh, hu, hres, hd']
        · intro h0' hh' hu' hd''
          have hsame : h0' = h0 := (Option.some.inj hh').symm
          subst hsame
          refine ⟨?_, ?_, ?_⟩
          · simp only [accept_offer, hh, hu, hres, hd']
            simp only [bne_self_eq_false, Bool.false_eq_true, if_false,
              Bool.false_eq_true, if_false]
            rw [getResource_broadcast]
            exact getResource_updateResource (fun r => rfl) hres
          · simp only [accept_offer, hh, hu, hres, hd']
            simp only [bne_self_eq_false, Bool.false_eq_true, if_false]
            rw [broadcast_queue_items, cancelTask_queue_items]
            rfl
          · simp only [accept_offer, hh, hu, hres, hd']
            simp only [bne_self_eq_false, Bool.false_eq_true, if_false]
            rw [broadcast_offer_tasks, cancelTask_offer_tasks]
            intro hmem
            have h1 : 0 < (db.offer_tasks.erase rid).count rid :=
              List.count_pos_iff.mpr hmem
            have h2 := List.count_erase_self rid db.offer_tasks
            omega
        · intro hne
          exact absurd (show (accept_offer db rid uid).2 = Except.ok true by
            simp [accept_offer, hh, hu, hres, hd']) hne
      · have hd' : res.active_offer_expires_at.isNone = true := by
          cases hx : res.active_offer_expires_at with
          | none => simp
          | some d => rw [hx] at hd; simp at hd
        have heq : accept_offer db rid uid = (db, Except.ok false) := by
          simp [accept_offer, hh, hu, hres, hd']
        rw [heq]
        refine ⟨?_, ?_, ?_⟩
        · constructor
          · intro hc
            simp at hc
          · rintro ⟨hds, -⟩
            exact absurd hds hd
        · intro h0' hh' hu' hd''
          exact absurd hd'' hd
        · intro _
          exact ⟨rfl, rfl⟩
    · have heq : accept_offer db rid uid = (db, Except.ok false) := by
        simp [accept_offer, hh]
        intro hcon
        exact absurd hcon hu
      rw [heq]
      refine ⟨?_, ?_, ?_⟩
      · constructor
        · intro hc
          simp at hc
        · rintro ⟨-, h0', hcon, huid⟩
          rcases Option.some.inj hcon with rfl
          exact absurd huid hu
      · intro h0' hh' hu' hd''
        rcases Option.some.inj hh' with rfl
        exact absurd hu' hu
      · intro _
        exact ⟨rfl, rfl⟩

theorem accept_offer_spec_witness :
    getResource dbOffered "R" = some resOffered ∧
    dbOffered.offer_tasks.count "R" ≤ 1 ∧
    (((accept_offer dbOffered "R" 1).2 = Except.ok true ↔
      (resOffered.active_offer_expires_at.isSome = true ∧
       ∃ h0, headItem dbOffered "R" = some h0 ∧ h0.user_id = 1)) ∧
     (∀ h0, headItem dbOffered "R" = some h0 → h0.user_id = 1 →
       resOffered.active_offer_expires_at.isSome = true →
       getResource (accept_offer dbOffered "R" 1).1 "R" =
         some { resOffered with current_holder_id := some 1, active_offer_expires_at := none } ∧
       (accept_offer dbOffered "R" 1).1.queue_items =
         dbOffered.queue_items.erase h0 ∧
       "R" ∉ (accept_offer dbOffered "R" 1).1.offer_tasks) ∧
     ((accept_offer dbOffered "R" 1).2 ≠ Except.ok true →
       (accept_offer dbOffered "R" 1).2 = Except.ok false ∧
       (accept_offer dbOffered "R" 1).1 = dbOffered)) :=
  ⟨by decide, by decide,
    accept_offer_spec dbOffered "R" 1 resOffered (by decide) (by decide)⟩

/-- C7: from the same Offered state with head claimant `t`, a successful
Reject deletes the head's queue item entirely (no item for that claimant on
the resource remains), while a timeout keeps the claimant in the queue,
reassigned to key one past the current maximum, which is strictly greater
than every key currently present; both clear the deadline and then advance,
so each final deadline is either null or a fresh `now + timeout_seconds`;
and timeout-expiry is a no-op whenever the resource's deadline is null. -/
theorem reject_vs_timeout_spec (db : DB) (rid : String) (now : Int)
    (res : ResourceRec) (t : QueueItem)
    (hres : getResource db rid = some res)
    (hdl : res.active_offer_expires_at.isSome = true)
    (hhead : headItem db rid = some t)
    (huniq : db.queue_items.filter
      (fun i => i.resource_id == rid && i.user_id == t.user_id) = [t]) :
    ((reject_offer db rid t.user_id now).1.queue_items =
        db.queue_items.erase t ∧
     (reject_offer db rid t.user_id now).1.queue_items.filter
       (fun i => i.resource_id == rid && i.user_id == t.user_id) = []) ∧
    ({ t with order := maxOrder db rid + 1 } ∈
       (handle_timeout db rid now).1.queue_items ∧
     ∀ i ∈ resourceItems db rid, i.order < maxOrder db rid + 1) ∧
    ((getResource (reject_offer db rid t.user_id now).1 rid =
        some { res with active_offer_expires_at := none } ∨
      getResource (reject_offer db rid t.user_id now).1 rid =
        some { res with
          active_offer_expires_at := some (now + res.timeout_seconds) }) ∧
     (getResource (handle_timeout db rid now).1 rid =
        some { res with active_offer_expires_at := none } ∨
      getResource (handle_timeout db rid now).1 rid =
        some { res with
          active_offer_expires_at := some (now + res.timeout_seconds) })) ∧
    (∀ (db' : DB) (rid' : String) (res' : ResourceRec) (now' : Int),
      getResource db' rid' = some res' →
      res'.active_offer_expires_at = none →
      handle_timeout db' rid' now' = (db', none)) := by
  have hd' : res.active_offer_expires_at.isNone = false := by
    cases hx : res.active_offer_expires_at with
    | none => rw [hx] at hdl; simp at hdl
    | some d => simp
  have hrj : (reject_offer db rid t.user_id now).1 =
      (process_queue (broadcast_update (cancelTask (updateResource
        { db with queue_items := db.queue_items.erase t } rid
        (fun r => { r with active_offer_expires_at := none })) rid) rid)
        rid now).1 := by
    simp only [reject_offer, hhead, hres, hd', bne_self_eq_false,
      Bool.false_eq_true, if_false]
    split
    · rename_i db4 e heq
      rw [heq]
    · rename_i db4 heq
      rw [heq]
  have hto : (handle_timeout db rid now).1 =
      (process_queue (broadcast_update (updateResource
        { db with
          queue_items := setItemOrder db.queue_items t (maxOrder db rid + 1) } rid
        (fun r => { r with active_offer_expires_at := none })) rid) rid now).1 := by
    simp only [handle_timeout, hres, hd', Bool.false_eq_true, if_false, hhead]
  refine ⟨⟨?_, ?_⟩, ⟨?_, ?_⟩, ⟨?_, ?_⟩, ?_⟩
  · rw [hrj, process_queue_fst_queue_items, broadcast_queue_items,
      cancelTask_queue_items, updateResource_queue_items]
  · rw [hrj, process_queue_fst_queue_items, broadcast_queue_items,
      cancelTask_queue_items, updateResource_queue_items]
    exact filter_erase_of_filter_singleton huniq
  · have hq : (handle_timeout db rid now).1.queue_items =
        setItemOrder db.queue_items t (maxOrder db rid + 1) := by
      rw [hto, process_queue_fst_queue_items, broadcast_queue_items,
        updateResource_queue_items]
    rw [hq]
    have ht : t ∈ db.queue_items := (List.mem_filter.mp (headItem?_mem hhead)).1
    exact mem_setItemOrder ht _
  · intro i hi
    have := le_maxOrder hi
    omega
  · have hres2 : getResource (broadcast_update (cancelTask (updateResource
        { db with queue_items := db.queue_items.erase t } rid
        (fun r => { r with active_offer_expires_at := none })) rid) rid) rid =
        some { res with active_offer_expires_at := none } := by
      rw [getResource_broadcast]
      exact getResource_updateResource (fun r => rfl) hres
    rw [hrj]
    exact process_queue_getResource now hres2
  · have hres3 : getResource (broadcast_update (updateResource
        { db with
          queue_items := setItemOrder db.queue_items t (maxOrder db rid + 1) } rid
        (fun r => { r with active_offer_expires_at := none })) rid) rid =
        some { res with active_offer_expires_at := none } := by
      rw [getResource_broadcast]
      exact getResource_updateResource (fun r => rfl) hres
    rw [hto]
    exact process_queue_getResource now hres3
  · intro db' rid' res' now' hres' hnone
    simp [handle_timeout, hres', hnone]

theorem reject_vs_timeout_spec_witness :
    getResource dbOffered "R" = some resOffered ∧
    resOffered.active_offer_expires_at.isSome = true ∧
    headItem dbOffered "R" = some { resource_id := "R", user_id := 1, order := 1 } ∧
    dbOffered.queue_items.filter
      (fun i => i.resource_id == "R" && i.user_id == 1) =
      [{ resource_id := "R", user_id := 1, order := 1 }] ∧
    (((reject_offer dbOffered "R" 1 0).1.queue_items =
        dbOffered.queue_items.erase { resource_id := "R", user_id := 1, order := 1 } ∧
      (reject_offer dbOffered "R" 1 0).1.queue_items.filter
        (fun i => i.resource_id == "R" && i.user_id == 1) = []) ∧
     ({ resource_id := "R", user_id := 1, order := maxOrder dbOffered "R" + 1 } ∈
        (handle_timeout dbOffered "R" 0).1.queue_items ∧
      ∀ i ∈ resourceItems dbOffered "R", i.order < maxOrder dbOffered "R" + 1) ∧
     ((getResource (reject_offer dbOffered "R" 1 0).1 "R" =
        some { resOffered with active_offer_expires_at := none } ∨
       getResource (reject_offer dbOffered "R" 1 0).1 "R" =
        some { resOffered with active_offer_expires_at := some (0 + resOffered.timeout_seconds) }) ∧
      (getResource (handle_timeout dbOffered "R" 0).1 "R" =
        some { resOffered with active_offer_expires_at := none } ∨
       getResource (handle_timeout dbOffered "R" 0).1 "R" =
        some { resOffered with active_offer_expires_at := some (0 + resOffered.timeout_seconds) })) ∧
     (∀ (db' : DB) (rid' : String) (res' : ResourceRec) (now' : Int),
       getResource db' rid' = some res' →
       res'.active_offer_expires_at = none →
       handle_timeout db' rid' now' = (db', none))) :=
  ⟨by decide, by decide, by decide, by decide,
    reject_vs_timeout_spec dbOffered "R" 0
      resOffered
      { resource_id := "R", user_id := 1, order := 1 }
      (by decide) (by decide) (by decide) (by decide)⟩

/-- C8: joining while an offer is outstanding perturbs nothing about the
offer — the resource rows (deadline and holder included) are unchanged, the
timer registry is unchanged (no advance is triggered, the timer is not
reset), the head of the queue is unchanged — the fresh claimant is only
appended at the tail with key one past the current maximum. -/
theorem join_frame_on_offer (db : DB) (rid : String) (u : Nat) (now : Int)
    (res : ResourceRec) (h0 : QueueItem)
    (hu : db.users.contains u = true) (hnz : u ≠ 0)
    (hnew : db.queue_items.any (fun i => i.user_id == u) = false)
    (hres : getResource db rid = some res)
    (hdl : res.active_offer_expires_at.isSome = true)
    (hhead : headItem db rid = some h0) :
    (join_queue db rid (some u) now).1.resources = db.resources ∧
    (join_queue db rid (some u) now).1.offer_tasks = db.offer_tasks ∧
    headItem (join_queue db rid (some u) now).1 rid = some h0 ∧
    (join_queue db rid (some u) now).1.queue_items =
      db.queue_items ++
        [{ resource_id := rid, user_id := u, order := maxOrder db rid + 1 }] ∧
    getResource (join_queue db rid (some u) now).1 rid = some res := by
  have hresolve := resolveUser_known hu hnz
  have heq : join_queue db rid (some u) now =
      (broadcast_update { db with queue_items := db.queue_items ++
        [{ resource_id := rid, user_id := u, order := maxOrder db rid + 1 }] } rid,
       Except.ok u) := by
    have hres1 : getResource { db with queue_items := db.queue_items ++
        [{ resource_id := rid, user_id := u, order := maxOrder db rid + 1 }] } rid =
        some res := hres
    simp [join_queue, hresolve, hnew, hres1, hdl]
  rw [heq]
  refine ⟨by simp, by simp, ?_, by simp, ?_⟩
  · show headItem? (resourceItems _ rid) = some h0
    have hfil : resourceItems (broadcast_update { db with queue_items :=
        db.queue_items ++
          [{ resource_id := rid, user_id := u, order := maxOrder db rid + 1 }] } rid) rid =
        resourceItems db rid ++
          [{ resource_id := rid, user_id := u, order := maxOrder db rid + 1 }] := by
      unfold resourceItems
      rw [broadcast_queue_items]
      show List.filter _ (db.queue_items ++ _) = _
      rw [List.filter_append]
      congr 1
      simp
    rw [hfil, headItem?_append]
    have hhead' : headItem? (resourceItems db rid) = some h0 := hhead
    simp only [hhead']
    have hle : h0.order ≤ maxOrder db rid := le_maxOrder (headItem?_mem hhead)
    rw [if_neg]
    simp only [not_lt]
    omega
  · rw [getResource_broadcast]
    exact hres

/-- Witness for C8: claimant 2 joins resource "R" while it is offered to
claimant 1. -/
theorem join_frame_on_offer_witness :
    dbOffered.users.contains 2 = true ∧ (2 : Nat) ≠ 0 ∧
    dbOffered.queue_items.any (fun i => i.user_id == 2) = false ∧
    getResource dbOffered "R" = some resOffered ∧
    resOffered.active_offer_expires_at.isSome = true ∧
    headItem dbOffered "R" = some { resource_id := "R", user_id := 1, order := 1 } ∧
    ((join_queue dbOffered "R" (some 2) 0).1.resources = dbOffered.resources ∧
     (join_queue dbOffered "R" (some 2) 0).1.offer_tasks = dbOffered.offer_tasks ∧
     headItem (join_queue dbOffered "R" (some 2) 0).1 "R" =
       some { resource_id := "R", user_id := 1, order := 1 } ∧
     (join_queue dbOffered "R" (some 2) 0).1.queue_items =
       dbOffered.queue_items ++
         [{ resource_id := "R", user_id := 2, order := maxOrder dbOffered "R" + 1 }] ∧
     getResource (join_queue dbOffered "R" (some 2) 0).1 "R" =
       some resOffered) :=
  ⟨by decide, by decide, by decide, by decide, by decide, by decide,
    join_frame_on_offer dbOffered "R" 2 0
      resOffered
      { resource_id := "R", user_id := 1, order := 1 }
      (by decide) (by decide) (by decide) (by decide) (by decide) (by decide)⟩

end AcquireQ
